import Mathlib

/-!
A shallow embedding, in Lean 4, of the rule-specification parser and the
per-field rule-execution engine of the `shugen002/validation` Go library,
together with theorems settling the specification's claims about it.

The embedding mirrors the Go source:
  * `parseParameters`, `parseRule`, `parseFieldRulesStr`  — factory.go
  * `GoValue`, `IsNil`, `GetSize`, the `ErrorBag` log     — the helper file
    declaring `Validator`/`Rule`/`ErrorBag` (ErrorBag.Add/Count/...)
  * `hasField`, `getValue`, `getNestedValue`,
    `shouldValidateField`, `runRules`, `runFields`,
    `getErrorMessage`, `formatMessage`                     — validator.go
  * `isNumeric`, `getSizeC`, `constructNumericRule`,
    `constructIntegerRule`, `constructMinRule`,
    `runClosure`                                           — rule_numbers.go /
    rule_size.go / the closure-style `Validator.Validate`

Go's `interface{}` data values are modelled by the inductive `GoValue`;
`float64` rule parameters are modelled by `ℚ` (every parameter appearing in
the repository's specifications is a short decimal literal, on which the two
agree exactly).  Go maps are modelled by association lists with first-match
lookup.
-/

namespace Validation

/-- Model of a Go `interface{}` value as stored in the validation data map.
`vNil` stands for the nil interface (and for nil maps/slices, which the
engine's `IsNil` treats identically). -/
inductive GoValue where
  | vNil : GoValue
  | vStr (s : String) : GoValue
  | vInt (n : Int) : GoValue
  | vBool (b : Bool) : GoValue
  | vMap (m : List (String × GoValue)) : GoValue
  | vArr (xs : List GoValue) : GoValue

/-- A Go `map[string]interface{}` record, as an association list. -/
abbrev Data := List (String × GoValue)

/-- First-match lookup in an association list (Go map read, `m[k]`). -/
def lookupStr {α : Type} (m : List (String × α)) (k : String) : Option α :=
  match m with
  | [] => none
  | (k', v) :: rest => if k' = k then some v else lookupStr rest k

/-!  String primitives.  The Go code uses `strings.Split`, `TrimSpace`,
`ToLower`, `Contains` and `ReplaceAll`; they are embedded here as structural
recursions over the character list of the string, so that every concrete
run of the embedded program reduces definitionally. -/

/-- Go `strings.Split` on a one-character separator, over character lists:
`splitCh sep ""` is `[""]`, exactly as in Go. -/
def splitCh (sep : Char) : List Char → List (List Char)
  | [] => [[]]
  | c :: cs =>
    if c = sep then [] :: splitCh sep cs
    else
      match splitCh sep cs with
      | [] => [[c]]
      | t :: ts => (c :: t) :: ts

/-- Join character lists with a separator (inverse of `splitCh`). -/
def joinCh (sep : Char) : List (List Char) → List Char
  | [] => []
  | [x] => x
  | x :: xs => x ++ sep :: joinCh sep xs

/-- Go `strings.TrimSpace` over a character list (leading and trailing
whitespace removed). -/
def trimCh (l : List Char) : List Char :=
  ((l.dropWhile Char.isWhitespace).reverse.dropWhile Char.isWhitespace).reverse

/-- Go `strings.Split` for a one-character separator. -/
def goSplit (s : String) (sep : Char) : List String :=
  (splitCh sep s.data).map String.mk

/-- Go `strings.TrimSpace`. -/
def goTrim (s : String) : String := String.mk (trimCh s.data)

/-- Go `strings.ToLower` (the rule names it is applied to are ASCII). -/
def goToLower (s : String) : String := String.mk (s.data.map Char.toLower)

/-- Go `strings.Contains(s, c)` for a one-character substring. -/
def goContainsChar (s : String) (c : Char) : Bool := s.data.any (· = c)

/-- One replacement pass of Go `strings.ReplaceAll`, with fuel (the fuel is
the string length, an upper bound on the number of steps). -/
def replaceAux (pat rep : List Char) : Nat → List Char → List Char
  | _, [] => []
  | 0, s => s
  | Nat.succ n, c :: cs =>
    if pat.isPrefixOf (c :: cs) then
      rep ++ replaceAux pat rep n (List.drop (pat.length - 1) cs)
    else c :: replaceAux pat rep n cs

/-- Go `strings.ReplaceAll(s, pat, rep)` for a nonempty pattern:
left-to-right, non-overlapping. -/
def goReplaceAll (s pat rep : String) : String :=
  String.mk (replaceAux pat.data rep.data s.data.length s.data)

/-- Go `strings.SplitN(s, sep, 2)` for a one-character separator:
the text before the first occurrence, and (when the separator occurs)
the entire remainder after it. -/
def splitFirst (s : String) (sep : Char) : String × Option String :=
  match splitCh sep s.data with
  | [] => (s, none)
  | [x] => (String.mk x, none)
  | x :: xs => (String.mk x, some (String.mk (joinCh sep xs)))

/-- The double-quote character. -/
def dquote : Char := Char.ofNat 34

/-- The single-quote character. -/
def squote : Char := Char.ofNat 39

/-- State of the quote-aware parameter scanner of `Factory.parseParameters`
(factory.go): accumulated tokens, current token, inside-quotes flag and the
active quote character (Go zero value `0` before any quote is seen). -/
structure PPState where
  params : List String
  current : List Char
  inQuotes : Bool
  quoteChar : Char

/-- One step of `Factory.parseParameters`'s character loop (factory.go):
the four cases of its `switch`, in order. -/
def ppStep (st : PPState) (c : Char) : PPState :=
  if (c = dquote ∨ c = squote) ∧ ¬ st.inQuotes then
    { st with inQuotes := true, quoteChar := c }
  else if c = st.quoteChar ∧ st.inQuotes then
    { st with inQuotes := false }
  else if c = ',' ∧ ¬ st.inQuotes then
    if st.current ≠ [] then
      { st with params := st.params ++ [String.mk (trimCh st.current)], current := [] }
    else st
  else
    { st with current := st.current ++ [c] }

/-- `Factory.parseParameters` (factory.go): quote-aware comma splitting of a
rule's parameter text, quotes stripped, tokens trimmed, a final nonempty
token flushed at end-of-text. -/
def parseParameters (paramStr : String) : List String :=
  let st := paramStr.data.foldl ppStep
    { params := [], current := [], inQuotes := false, quoteChar := Char.ofNat 0 }
  if st.current ≠ [] then st.params ++ [String.mk (trimCh st.current)] else st.params

/-- Digits of a decimal string prefix. -/
def takeDigits : List Char → List Char × List Char
  | [] => ([], [])
  | c :: cs =>
    if c.isDigit then
      let (ds, rest) := takeDigits cs
      (c :: ds, rest)
    else ([], c :: cs)

/-- Natural number denoted by a list of decimal digits. -/
def natOfDigits (ds : List Char) : Nat :=
  ds.foldl (fun acc c => 10 * acc + (c.toNat - 48)) 0

/-- Model of Go `strconv.Atoi`: optional sign followed by one or more
decimal digits (the Go function additionally range-checks against the
machine int, which never triggers on the repository's inputs). -/
def goParseInt? (s : String) : Option Int :=
  let (sign, body) : Int × List Char :=
    match s.data with
    | '-' :: cs => (-1, cs)
    | '+' :: cs => (1, cs)
    | cs => (1, cs)
  match takeDigits body with
  | (ds, []) => if ds = [] then none else some (sign * (natOfDigits ds : Int))
  | _ => none

/-- Exact decimal number `m / 10 ^ e`.  Models the float64 values the Go
code parses from rule parameters: every such parameter in this repository
is a short decimal literal, represented exactly both by the float64 and by
this type, and compared identically. -/
structure Dec where
  m : Int
  e : Nat
  deriving DecidableEq

/-- The decimal denoted by an integer. -/
def Dec.ofInt (n : Int) : Dec := ⟨n, 0⟩

/-- The decimal denoted by a natural number. -/
def Dec.ofNat (n : Nat) : Dec := ⟨(n : Int), 0⟩

/-- `a ≤ b` on decimals (float64 comparison of the modelled values). -/
def Dec.le (a b : Dec) : Bool := decide (a.m * (10 : Int) ^ b.e ≤ b.m * (10 : Int) ^ a.e)

/-- `a < b` on decimals. -/
def Dec.lt (a b : Dec) : Bool := decide (a.m * (10 : Int) ^ b.e < b.m * (10 : Int) ^ a.e)

/-- Value equality on decimals (float64 `==` of the modelled values). -/
def Dec.eqv (a b : Dec) : Bool := decide (a.m * (10 : Int) ^ b.e = b.m * (10 : Int) ^ a.e)

/-- Model of Go `strconv.ParseFloat`, restricted to plain decimal literals
(optional sign, integer digits, optional fractional digits): every numeric
rule parameter appearing in this repository has that shape, and on it the
model agrees exactly with the float64 the Go code parses. -/
def goParseFloat? (s : String) : Option Dec :=
  let (neg, body) : Bool × List Char :=
    match s.data with
    | '-' :: cs => (true, cs)
    | '+' :: cs => (false, cs)
    | cs => (false, cs)
  let (ipart, rest) := takeDigits body
  let mk : Nat → Nat → Option Dec := fun m e =>
    some ⟨if neg then -(m : Int) else (m : Int), e⟩
  match rest with
  | [] =>
    if ipart = [] then none
    else mk (natOfDigits ipart) 0
  | '.' :: cs =>
    match takeDigits cs with
    | (fpart, []) =>
      if ipart = [] ∧ fpart = [] then none
      else mk (natOfDigits ipart * 10 ^ fpart.length + natOfDigits fpart) fpart.length
    | _ => none
  | _ => none

/-- Version selector of the `uuid` rule (factory.go): `nil`, the literal
`"max"`, or a parsed integer version. -/
inductive UuidVer where
  | vmax : UuidVer
  | vnum (n : Int) : UuidVer
  deriving DecidableEq, Repr

/-- The parsed form of one rule token: one constructor per rule struct
built by the `switch` of `Factory.parseRule` (factory.go), carrying exactly
the fields the Go constructor fills from the parameters. -/
inductive ParsedRule where
  | required
  | str
  | integer (strict : Bool)
  | numeric (strict : Bool)
  | boolean (strict : Bool)
  | accepted
  | acceptedIf (field value : String)
  | declined
  | declinedIf (field value : String)
  | array (allowedKeys : List String)
  | json
  | email (validations : List String)
  | alpha (ascii : Bool)
  | alphaNum (ascii : Bool)
  | alphaDash (ascii : Bool)
  | min (min : Dec)
  | max (max : Dec)
  | between (min max : Dec)
  | size (size : Dec)
  | inList (values : List String)
  | notInList (values : List String)
  | regex (pattern : String)
  | notRegex (pattern : String)
  | same (field : String)
  | different (fields : List String)
  | confirmed (field : String)
  | url (protocols : List String)
  | ip
  | ipv4
  | ipv6
  | macAddress
  | uuid (version : Option UuidVer)
  | ulid
  | hexColor
  | date
  | dateFormat (formats : List String)
  | after (date : String)
  | afterOrEqual (date : String)
  | before (date : String)
  | beforeOrEqual (date : String)
  | dateEquals (date : String)
  | timezone (group country : String)
  | startsWith (prefixes : List String)
  | endsWith (suffixes : List String)
  | doesntStartWith (prefixes : List String)
  | doesntEndWith (suffixes : List String)
  | uppercase
  | lowercase
  | ascii
  | nullable
  | sometimes
  | bail
  | digits (length : Int)
  | digitsBetween (min max : Int)
  | filled
  | present
  | prohibited
  | requiredIf (field value : String)
  | requiredUnless (field value : String)
  | requiredWith (fields : List String)
  | requiredWithout (fields : List String)

/-- Strip surrounding `/` delimiters from a regex pattern when both are
present (the regex/not_regex branch of `Factory.parseRule`). -/
def stripSlashes (pattern : String) : String :=
  if pattern.data.length ≥ 2 ∧ pattern.data.head? = some '/' ∧
      pattern.data.getLast? = some '/' then
    String.mk (pattern.data.drop 1).dropLast
  else pattern

/-- `Factory.parseRule` (factory.go): split a rule token at its first colon
into a lower-cased name and parameter text; comma-split the parameters
quote-awarely — except for `regex`/`not_regex`, whose entire remainder is
kept verbatim (then trimmed and `/`-stripped); dispatch on the name.  An
unrecognized name, and a recognized name whose required parameters are
missing or unparsable, both fall through to `none` (Go `nil`). -/
def parseRule (ruleStr : String) : Option ParsedRule :=
  if ruleStr = "" then none else
  let parts := splitFirst ruleStr ':'
  let ruleName := goToLower parts.1
  let params : List String :=
    match parts.2 with
    | some p => parseParameters p
    | none => []
  match ruleName with
  | "required" => some .required
  | "string" => some .str
  | "integer" => some (.integer (params.head? = some "strict"))
  | "int" => some (.integer (params.head? = some "strict"))
  | "numeric" => some (.numeric (params.head? = some "strict"))
  | "boolean" => some (.boolean (params.head? = some "strict"))
  | "bool" => some (.boolean (params.head? = some "strict"))
  | "accepted" => some .accepted
  | "accepted_if" =>
    match params with
    | f :: v :: _ => some (.acceptedIf f v)
    | _ => none
  | "declined" => some .declined
  | "declined_if" =>
    match params with
    | f :: v :: _ => some (.declinedIf f v)
    | _ => none
  | "array" => some (.array params)
  | "json" => some .json
  | "email" => some (.email params)
  | "alpha" => some (.alpha (params.head? = some "ascii"))
  | "alpha_num" => some (.alphaNum (params.head? = some "ascii"))
  | "alpha_dash" => some (.alphaDash (params.head? = some "ascii"))
  | "min" =>
    match params with
    | p :: _ => (goParseFloat? p).map .min
    | [] => none
  | "max" =>
    match params with
    | p :: _ => (goParseFloat? p).map .max
    | [] => none
  | "between" =>
    match params with
    | p :: q :: _ =>
      match goParseFloat? p, goParseFloat? q with
      | some a, some b => some (.between a b)
      | _, _ => none
    | _ => none
  | "size" =>
    match params with
    | p :: _ => (goParseFloat? p).map .size
    | [] => none
  | "in" => some (.inList params)
  | "not_in" => some (.notInList params)
  | "regex" =>
    match parts.2 with
    | some raw => some (.regex (stripSlashes (goTrim raw)))
    | none => none
  | "not_regex" =>
    match parts.2 with
    | some raw => some (.notRegex (stripSlashes (goTrim raw)))
    | none => none
  | "same" =>
    match params with
    | f :: _ => some (.same f)
    | [] => none
  | "different" => some (.different params)
  | "confirmed" => some (.confirmed (params.headD ""))
  | "url" => some (.url params)
  | "ip" => some .ip
  | "ipv4" => some .ipv4
  | "ipv6" => some .ipv6
  | "mac_address" => some .macAddress
  | "uuid" =>
    match params with
    | p :: _ =>
      if p = "max" then some (.uuid (some .vmax))
      else
        match goParseInt? p with
        | some n => some (.uuid (some (.vnum n)))
        | none => some (.uuid none)
    | [] => some (.uuid none)
  | "ulid" => some .ulid
  | "hex_color" => some .hexColor
  | "date" => some .date
  | "date_format" => some (.dateFormat params)
  | "after" =>
    match params with
    | p :: _ => some (.after p)
    | [] => none
  | "after_or_equal" =>
    match params with
    | p :: _ => some (.afterOrEqual p)
    | [] => none
  | "before" =>
    match params with
    | p :: _ => some (.before p)
    | [] => none
  | "before_or_equal" =>
    match params with
    | p :: _ => some (.beforeOrEqual p)
    | [] => none
  | "date_equals" =>
    match params with
    | p :: _ => some (.dateEquals p)
    | [] => none
  | "timezone" => some (.timezone (params.headD "") ((params.drop 1).headD ""))
  | "starts_with" => some (.startsWith params)
  | "ends_with" => some (.endsWith params)
  | "doesnt_start_with" => some (.doesntStartWith params)
  | "doesnt_end_with" => some (.doesntEndWith params)
  | "uppercase" => some .uppercase
  | "lowercase" => some .lowercase
  | "ascii" => some .ascii
  | "nullable" => some .nullable
  | "sometimes" => some .sometimes
  | "bail" => some .bail
  | "digits" =>
    match params with
    | p :: _ => (goParseInt? p).map .digits
    | [] => none
  | "digits_between" =>
    match params with
    | p :: q :: _ =>
      match goParseInt? p, goParseInt? q with
      | some a, some b => some (.digitsBetween a b)
      | _, _ => none
    | _ => none
  | "filled" => some .filled
  | "present" => some .present
  | "prohibited" => some .prohibited
  | "required_if" =>
    match params with
    | f :: v :: _ => some (.requiredIf f v)
    | _ => none
  | "required_unless" =>
    match params with
    | f :: v :: _ => some (.requiredUnless f v)
    | _ => none
  | "required_with" => some (.requiredWith params)
  | "required_without" => some (.requiredWithout params)
  | _ => none

/-- The string branch of `Factory.parseFieldRules` (factory.go): split the
field's rule text on `|`, trim each token, parse it, and silently drop
every token `parseRule` returns `nil` for. -/
def parseFieldRulesStr (rules : String) : List ParsedRule :=
  (goSplit rules '|').filterMap (fun s => parseRule (goTrim s))

/-!  The rule-execution engine (validator.go) and the helpers it relies on
(`IsNil`, `GetSize`, `ErrorBag` — the interface/helper file). -/

/-- `IsNil` (helper file): nil interface value; nil maps/slices/pointers
are likewise represented by `vNil` here. -/
def IsNil : GoValue → Bool
  | .vNil => true
  | _ => false

/-- `GetSize` (helper file): character count for strings, element count for
slices/arrays/maps, numeric value for numbers, failure for anything else
(including the nil interface and booleans). -/
def GetSize : GoValue → Option Dec
  | .vNil => none
  | .vStr s => some (Dec.ofNat s.data.length)
  | .vArr l => some (Dec.ofNat l.length)
  | .vMap m => some (Dec.ofNat m.length)
  | .vInt n => some (Dec.ofInt n)
  | .vBool _ => none

/-- A materialized constraint instance: the Go `Rule` interface value, with
the duck-typed `ImplicitRule` capability as an explicit flag and the
`DataAwareRule` injection modelled by passing the full record to `passes`.
`name` is the lower-cased rule-struct name with the `Rule` suffix trimmed,
exactly what `validator.getErrorMessage` computes by reflection. -/
structure RuleV where
  name : String
  isImplicit : Bool
  passes : Data → String → GoValue → Bool
  message : String

/-- `validator.hasField` (validator.go): the full field string looked up as
a top-level key of the data map. -/
def hasField (data : Data) (field : String) : Bool :=
  (lookupStr data field).isSome

/-- `validator.getNestedValue`'s walk (validator.go): descend one dot
segment at a time; the last segment is read directly (a missing key gives
the nil interface); an intermediate segment that is missing or not a nested
`map[string]interface{}` gives nil. -/
def getNested : List (String × GoValue) → List String → GoValue
  | _, [] => .vNil
  | m, [p] => (lookupStr m p).getD .vNil
  | m, p :: rest =>
    match lookupStr m p with
    | some (.vMap m') => getNested m' rest
    | some _ => .vNil
    | none => .vNil

/-- `validator.getValue` (validator.go): dotted names walk nested records,
plain names are read directly from the data map. -/
def getValue (data : Data) (field : String) : GoValue :=
  if goContainsChar field '.' then getNested data (goSplit field '.')
  else (lookupStr data field).getD .vNil

/-- `validator.shouldValidateField` (validator.go): implicit rules always
run; all other rules are skipped when the field is missing from the data
map or its value is nil. -/
def shouldValidateField (data : Data) (field : String) (value : GoValue)
    (r : RuleV) : Bool :=
  if r.isImplicit then true
  else if ¬ hasField data field then false
  else if IsNil value then false
  else true

/-- `validator.formatMessage` (validator.go): substitute `:attribute` with
the custom display name when the caller supplied one, else the raw field
name; then substitute `:field` with the raw field name. -/
def formatMessage (ca : List (String × String)) (message field : String) : String :=
  let attrName := (lookupStr ca field).getD field
  goReplaceAll (goReplaceAll message ":attribute" attrName) ":field" field

/-- `validator.getErrorMessage` (validator.go): a custom message keyed
`field.ruleName` wins over one keyed `ruleName`, which wins over the rule's
own default template; the chosen template is then formatted. -/
def getErrorMessage (cm ca : List (String × String)) (field : String)
    (r : RuleV) : String :=
  match lookupStr cm (field ++ "." ++ r.name) with
  | some m => formatMessage ca m field
  | none =>
    match lookupStr cm r.name with
    | some m => formatMessage ca m field
    | none => formatMessage ca r.message field

/-- The inner loop of `validator.runValidation` (validator.go) over one
field's chain: skip rules `shouldValidateField` rejects; on a failure
record the rendered message, then stop the whole run when the
stop-on-first-failure flag is set, or stop this field's chain when the
failing rule is implicit; otherwise continue.  Returns this field's
ErrorBag entries in order and whether the entire run was stopped. -/
def runRules (data : Data) (cm ca : List (String × String)) (stop : Bool)
    (field : String) (value : GoValue) :
    List RuleV → List (String × String) × Bool
  | [] => ([], false)
  | r :: rest =>
    if ¬ shouldValidateField data field value r then
      runRules data cm ca stop field value rest
    else if r.passes data field value then
      runRules data cm ca stop field value rest
    else
      let entry := (field, getErrorMessage cm ca field r)
      if stop then ([entry], true)
      else if r.isImplicit then ([entry], false)
      else
        let res := runRules data cm ca stop field value rest
        (entry :: res.1, res.2)

/-- The outer loop of `validator.runValidation` (validator.go): fields in
turn (one enumeration of Go's map iteration), each field's value resolved
once by `getValue`; a run stopped by the stop-on-first-failure flag
proceeds to no further field.  The result is the ErrorBag as the ordered
log of `ErrorBag.Add(field, message)` calls. -/
def runFields (data : Data) (cm ca : List (String × String)) (stop : Bool) :
    List (String × List RuleV) → List (String × String)
  | [] => []
  | (f, chain) :: rest =>
    let res := runRules data cm ca stop f (getValue data f) chain
    if res.2 then res.1 else res.1 ++ runFields data cm ca stop rest

/-- `ErrorBag.Count` (helper file): total number of recorded messages. -/
def bagCount (bag : List (String × String)) : Nat := bag.length

/-- `ErrorBag.Get` (helper file): the ordered messages of one field. -/
def bagGet (bag : List (String × String)) (field : String) : List String :=
  bag.filterMap (fun e => if e.1 = field then some e.2 else none)

/-- `validator.Passes` (validator.go): run the validation, then ask
`ErrorBag.IsEmpty`. -/
def validatorPasses (data : Data) (rules : List (String × List RuleV))
    (cm ca : List (String × String)) (stop : Bool) : Bool :=
  (runFields data cm ca stop rules).isEmpty

/-!  The concrete constraint instances the claims exercise, translated from
rules_basic_types.go and the numeric-rule file. -/

/-- `RequiredRule.Passes` (rules_basic_types.go): nil fails; a string must
be nonempty after trimming; slices/arrays/maps must be nonempty; every
other present value (numbers, booleans, …) passes. -/
def requiredPasses : GoValue → Bool
  | .vNil => false
  | .vStr s => goTrim s ≠ ""
  | .vArr l => l.length > 0
  | .vMap m => m.length > 0
  | _ => true

/-- The `required` constraint instance (implicit). -/
def requiredRuleV : RuleV :=
  ⟨"required", true, fun _ _ v => requiredPasses v, "The :attribute field is required."⟩

/-- The `string` constraint instance (`StringRule`, rules_basic_types.go). -/
def stringRuleV : RuleV :=
  ⟨"string", false, fun _ _ v => match v with | .vStr _ => true | _ => false,
    "The :attribute must be a string."⟩

/-- `MinRule.Passes` in its live form (the copy with the numeric-string
heuristics): a numeric string is compared by magnitude when the bound is
≥ 1000, or when the bound is in [10,500] and the value in [50,1000];
everything else falls back to `GetSize` (length for strings).  The second
copy of `MinRule` in the source lacks the two heuristic branches and
agrees with this one on all non-string values. -/
def minRulePasses (min : Dec) (v : GoValue) : Bool :=
  let fallback : Bool :=
    match GetSize v with
    | some size => Dec.le min size
    | none => false
  match v with
  | .vStr s =>
    match goParseFloat? s with
    | some x =>
      if Dec.le ⟨1000, 0⟩ min then Dec.le min x
      else if Dec.le ⟨10, 0⟩ min ∧ Dec.le min ⟨500, 0⟩ ∧
          Dec.le ⟨50, 0⟩ x ∧ Dec.le x ⟨1000, 0⟩ then
        Dec.le min x
      else fallback
    | none => fallback
  | _ => fallback

/-- Decimal rendered as Go `%.0f` renders the integral bounds appearing in
this repository's rule texts (the claims never exercise fractional bounds). -/
def fmtF0 (d : Dec) : String := toString (d.m / (10 : Int) ^ d.e)

/-- The `min` constraint instance. -/
def minRuleV (min : Dec) : RuleV :=
  ⟨"min", false, fun _ _ v => minRulePasses min v,
    "The :attribute must be at least " ++ fmtF0 min ++ "."⟩

/-- The `email` constraint instance, its leaf predicate (Go
`net/mail.ParseAddress`) kept abstract: the engine-level claims hold for
every leaf predicate. -/
def mkEmailRuleV (p : GoValue → Bool) : RuleV :=
  ⟨"email", false, fun _ _ v => p v, "The :attribute must be a valid email address."⟩

/-!  The closure-style rule system: `ValidationContext` and the
`Validator.Validate` loop (the closure-style half of the interface file),
`isNumeric`/`isInteger` and the numeric/integer constructors
(rule_numbers.go), `getSize` and the min constructor (rule_size.go). -/

/-- `isNumeric` (rule_numbers.go): the anchored pattern
"optional minus, digits, optional dot and digits". -/
def isNumericStr (s : String) : Bool :=
  let body := match s.data with | '-' :: cs => cs | cs => cs
  let (ds, rest) := takeDigits body
  if ds = [] then false
  else
    match rest with
    | [] => true
    | '.' :: cs =>
      match takeDigits cs with
      | (fs, []) => fs ≠ []
      | _ => false
    | _ => false

/-- `isInteger` (rule_numbers.go): optional minus then digits only. -/
def isIntegerStr (s : String) : Bool :=
  let body := match s.data with | '-' :: cs => cs | cs => cs
  match takeDigits body with
  | (ds, []) => ds ≠ []
  | _ => false

/-- The per-field `ValidationContext` of the closure-style system, with its
transient `memory` map (only boolean facts are ever stored in it). -/
structure ClosureCtx where
  FieldName : String
  FieldValue : String
  HasNumericRule : Bool
  memory : List (String × Bool)

/-- A closure-style rule: `func(ctx) (next bool, err error)`, the mutation
of `ctx.memory` made explicit in the result. -/
abbrev ClosureRule := ClosureCtx → Bool × Option String × ClosureCtx

/-- Go `len` of a string: its UTF-8 byte length. -/
def utf8Len (s : String) : Nat := s.data.foldl (fun n c => n + c.utf8Size) 0

/-- `getSize` (rule_size.go): when the chain has a numeric rule and the
value is (already known or now seen to be) numeric, the parsed numeric
value, with the "numeric" fact recorded; otherwise the byte length of the
field text. -/
def getSizeC (ctx : ClosureCtx) : Dec × ClosureCtx :=
  if ctx.HasNumericRule ∧
      ((lookupStr ctx.memory "numeric").getD false ∨ isNumericStr ctx.FieldValue) then
    ((goParseFloat? ctx.FieldValue).getD ⟨0, 0⟩,
      { ctx with memory := ("numeric", true) :: ctx.memory })
  else (Dec.ofNat (utf8Len ctx.FieldValue), ctx)

/-- `constructNumericRule`'s closure (rule_numbers.go). -/
def numericRuleC : ClosureRule := fun ctx =>
  if isNumericStr ctx.FieldValue then
    (true, none, { ctx with memory := ("numeric", true) :: ctx.memory })
  else (false, some (ctx.FieldName ++ " must be a numeric value"), ctx)

/-- `constructIntergerRule`'s closure (rule_numbers.go). -/
def integerRuleC : ClosureRule := fun ctx =>
  if isIntegerStr ctx.FieldValue then
    (true, none,
      { ctx with memory := ("numeric", true) :: ("integer", true) :: ctx.memory })
  else (false, some (ctx.FieldName ++ " must be an integer value"), ctx)

/-- `constructMinRule`'s closure (rule_size.go). -/
def minRuleC (min : Dec) : ClosureRule := fun ctx =>
  let r := getSizeC ctx
  if Dec.lt r.1 min then
    (false, some (ctx.FieldName ++ " must be at least " ++ fmtF0 min ++ " in size"), r.2)
  else (true, none, r.2)

/-- The rule loop of the closure-style `Validator.Validate` for one field:
an error aborts immediately; `next = false` ends the chain without error. -/
def runClosure : List ClosureRule → ClosureCtx → Option String
  | [], _ => none
  | r :: rest, ctx =>
    let res := r ctx
    match res.2.1 with
    | some e => some e
    | none => if res.1 then runClosure rest res.2.2 else none

/-- `defaultNumericRules` (the closure-style half of the interface file):
the rule names that establish the numeric nature of a field. -/
def closureNumericNames : List String := ["numeric", "integer", "int", "decimal"]

/-- The registry entries of the closure-style rules a chain of this
development can name (`embeddedNumberRules` / `embeddedSizeRules`). -/
def closureConstruct (name : String) (args : List String) : Option ClosureRule :=
  match name with
  | "numeric" => some numericRuleC
  | "integer" => some integerRuleC
  | "int" => some integerRuleC
  | "min" =>
    match args with
    | a :: _ => (goParseFloat? a).map minRuleC
    | [] => none
  | _ => none

/-- Modelled from the spec: the closure-style chain compiler (the code that
builds a `ParseResult` from a field's rule text) is not among the source
files — only its registry entries, its context type, its
`defaultNumericRules` list and its executing `Validator.Validate` loop are.
Per §4.1/§4.3 of the spec it tokenizes the rule text exactly as the factory
parser does (pipe split, first-colon split, lower-cased name, quote-aware
parameters) and precomputes `HasNumericRule` as "the chain names at least
one of the numeric-establishing rules". -/
def compileChain (ruleText : String) : Option (List ClosureRule) :=
  let toks := ((goSplit ruleText '|').map goTrim).filter (· ≠ "")
  let build : String → Option ClosureRule := fun t =>
    let parts := splitFirst t ':'
    let args : List String :=
      match parts.2 with
      | some p => parseParameters p
      | none => []
    closureConstruct (goToLower parts.1) args
  toks.foldr (fun t acc =>
    match build t, acc with
    | some r, some rs => some (r :: rs)
    | _, _ => none) (some [])

/-- Modelled from the spec (see `compileChain`): whether a chain's rule
names include a numeric-establishing rule. -/
def chainHasNumericRule (ruleText : String) : Bool :=
  (((goSplit ruleText '|').map goTrim).filter (· ≠ "")).any
    (fun t => closureNumericNames.contains (goToLower (splitFirst t ':').1))

/-- Compile a field's rule text and run it on the field's value in a fresh
context, as the closure-style `Validator.Validate` does: `none` when the
chain does not compile, otherwise the first validation error (or `none`
inside when the field passes). -/
def validateOne (ruleText fieldName value : String) : Option (Option String) :=
  (compileChain ruleText).map (fun rs =>
    runClosure rs ⟨fieldName, value, chainHasNumericRule ruleText, []⟩)

/-!  Spec-side definitions for the refinement claims, written from the
specification's words (not from the source), to be compared with the
engine. -/

/-- Whether the engine both runs a rule and sees it fail, for a given field
and resolved value. -/
def failsOn (data : Data) (field : String) (value : GoValue) (r : RuleV) : Bool :=
  shouldValidateField data field value r && ! r.passes data field value

/-- From the spec's words: the prefix of a chain the engine evaluates, up
to and including the first failing implicit rule (the whole chain when no
implicit rule fails). -/
def upToImplicitFailure (p : RuleV → Bool) : List RuleV → List RuleV
  | [] => []
  | r :: rest => r :: (if p r ∧ r.isImplicit then [] else upToImplicitFailure p rest)

/-!  Concrete records and chains used by the individual claims. -/

/-- Record with two fields both failing both of their (non-implicit) rules. -/
def c3Data : Data := [("a", .vInt 1), ("b", .vInt 1)]

/-- A chain of two rules that both fail on the integer value `1`. -/
def c3Chain : List RuleV := [stringRuleV, minRuleV ⟨5, 0⟩]

/-- Record with two users of which only the second has an invalid email. -/
def c9Data : Data :=
  [("users", .vArr [.vMap [("email", .vStr "john@example.com")],
                    .vMap [("email", .vStr "invalid-email")]])]

/-- Record holding a nested value `user.profile.age = 5`, with no literal
top-level key `"user.profile.age"`. -/
def c10Data : Data := [("user", .vMap [("profile", .vMap [("age", .vInt 5)])])]

/-!  The claims. -/

/-- Claim C1.  The claim states that a specification naming an unknown rule
fails at build time with an "unknown rule" error and never silently passes.
The factory code does the opposite: `parseRule` falls through its `switch`
to `nil` for the unknown name, `parseFieldRules` silently drops the `nil`,
and the resulting validator (here on the field `x` with the sole rule token
`bogus`) runs an empty chain and passes — the declared `ErrUnknownRule`
error is never raised anywhere. -/
theorem c1_unknown_rule_silently_dropped :
    parseRule "bogus" = none ∧
    parseFieldRulesStr "bogus" = [] ∧
    validatorPasses [("x", .vStr "abc")] [("x", [])] [] [] false = true :=
  ⟨rfl, rfl, rfl⟩

/-- Claim C3.  With the stop-on-first-failure flag set, a run over a record
with two failing fields, each with a chain of two failing rules, leaves
exactly one message in the ErrorBag — under either enumeration order of the
two fields — whereas the same run without the flag leaves four. -/
theorem c3_stop_on_first_failure_single_message :
    bagCount (runFields c3Data [] [] true [("a", c3Chain), ("b", c3Chain)]) = 1 ∧
    bagCount (runFields c3Data [] [] true [("b", c3Chain), ("a", c3Chain)]) = 1 ∧
    bagCount (runFields c3Data [] [] false [("a", c3Chain), ("b", c3Chain)]) = 4 :=
  ⟨rfl, rfl, rfl⟩

/-- Claim C6.  Parameter splitting for non-pattern rules is quote-aware: a
double or single quote toggles an inside-quotes state in which commas do
not separate, the quotes themselves are stripped, and an unterminated quote
is closed at end-of-text; in particular the text of `starts_with:"a,b",c`
yields exactly the parameters `a,b` and `c`. -/
theorem c6_quote_aware_parameter_splitting :
    parseParameters "\"a,b\",c" = ["a,b", "c"] ∧
    parseRule "starts_with:\"a,b\",c" = some (.startsWith ["a,b", "c"]) ∧
    parseParameters "\"a,b" = ["a,b"] ∧
    parseParameters (String.mk [squote, 'x', ',', 'y', squote, ',', 'z']) = ["x,y", "z"] ∧
    parseParameters "a\"b,c\"d,e" = ["ab,cd", "e"] :=
  ⟨rfl, rfl, rfl, rfl, rfl⟩

/-- Claim C7.  For `regex` and `not_regex` the entire text after the first
colon is kept as one parameter, never comma-split, and surrounding `/`
delimiters are stripped: `regex:/^[A-Z]{3}[0-9]{3}$/` yields exactly the
pattern `^[A-Z]{3}[0-9]{3}$`, commas and further colons stay inside the
single parameter. -/
theorem c7_regex_parameter_unsplit :
    parseRule "regex:/^[A-Z]{3}[0-9]{3}$/" = some (.regex "^[A-Z]{3}[0-9]{3}$") ∧
    parseRule "not_regex:/^[A-Z]{3}[0-9]{3}$/" = some (.notRegex "^[A-Z]{3}[0-9]{3}$") ∧
    parseRule "regex:^(a,b)$" = some (.regex "^(a,b)$") ∧
    parseRule "not_regex:/x,y/" = some (.notRegex "x,y") ∧
    parseRule "regex:/^a:b$/" = some (.regex "^a:b$") :=
  ⟨rfl, rfl, rfl, rfl, rfl⟩

/-- Claim C8.  In the closure-style system, `min:5` on a chain that also
carries `numeric` (or `integer`) compares the numeric magnitude — the
string `"10"` passes, in either order of the two rules — while `min:5` on a
chain without a numeric-establishing rule compares character length: the
same `"10"` fails (length 2), and the non-numeric `"abcde"` (length 5)
passes. -/
theorem c8_min_numeric_vs_length :
    validateOne "numeric|min:5" "v" "10" = some none ∧
    validateOne "min:5|numeric" "v" "10" = some none ∧
    validateOne "integer|min:5" "v" "10" = some none ∧
    validateOne "min:5" "v" "10" = some (some "v must be at least 5 in size") ∧
    validateOne "min:5" "v" "abcde" = some none :=
  ⟨rfl, rfl, rfl, rfl, rfl⟩

/-- Claim C9.  The claim states that validating `users.*.email` against a
two-element array with one invalid email yields exactly one failure under
the indexed name `users.1.email`.  The engine has no wildcard expansion:
`getNestedValue` cannot traverse the array, the field resolves to nil, so —
whatever the email leaf predicate — the chain `required|email` records
exactly one `required` failure under the literal key `users.*.email` and
nothing under `users.1.email`, and the chain `email` alone is skipped
entirely and records nothing. -/
theorem c9_wildcard_unexpanded (p : GoValue → Bool) :
    getValue c9Data "users.*.email" = .vNil ∧
    runFields c9Data [] [] false [("users.*.email", [requiredRuleV, mkEmailRuleV p])]
      = [("users.*.email", "The users.*.email field is required.")] ∧
    bagGet (runFields c9Data [] [] false
        [("users.*.email", [requiredRuleV, mkEmailRuleV p])]) "users.1.email" = [] ∧
    runFields c9Data [] [] false [("users.*.email", [mkEmailRuleV p])] = [] :=
  ⟨rfl, rfl, rfl, rfl⟩

/-- Witness for claim C9 at a concrete leaf predicate (one rejecting every
value, as a real email check does on the resolved nil). -/
theorem c9_witness :
    getValue c9Data "users.*.email" = .vNil ∧
    runFields c9Data [] [] false
        [("users.*.email", [requiredRuleV, mkEmailRuleV (fun _ => false)])]
      = [("users.*.email", "The users.*.email field is required.")] ∧
    bagGet (runFields c9Data [] [] false
        [("users.*.email", [requiredRuleV, mkEmailRuleV (fun _ => false)])])
      "users.1.email" = [] ∧
    runFields c9Data [] [] false [("users.*.email", [mkEmailRuleV (fun _ => false)])] = [] :=
  c9_wildcard_unexpanded (fun _ => false)

/-- Claim C2.  For every field and chain, when the resolved value is absent
from the data record or nil, the engine behaves exactly as if every
non-implicit rule of the chain were removed — they are never executed and
contribute no failure — while implicit rules are always eligible to run. -/
theorem c2_absent_or_nil_skips_non_implicit (data : Data)
    (cm ca : List (String × String)) (stop : Bool) (field : String)
    (value : GoValue) (chain : List RuleV)
    (h : hasField data field = false ∨ IsNil value = true) :
    runRules data cm ca stop field value chain
      = runRules data cm ca stop field value (chain.filter (fun r => r.isImplicit)) ∧
    ∀ r : RuleV, r.isImplicit = true → shouldValidateField data field value r = true := by
  constructor
  · induction chain with
    | nil => rfl
    | cons r rest ih =>
      by_cases hi : r.isImplicit
      · have hs : shouldValidateField data field value r = true := by
          simp [shouldValidateField, hi]
        by_cases hp : r.passes data field value
        · simp only [runRules, List.filter_cons, hi, hs, hp, ih]
        · simp only [runRules, List.filter_cons, hi, hs, hp, ih]
      · have hs : shouldValidateField data field value r = false := by
          rcases h with h | h
          · simp [shouldValidateField, hi, h]
          · simp [shouldValidateField, hi, h]
        simp only [runRules, List.filter_cons, hi, hs, ih]
        simp
  · intro r hr
    simp [shouldValidateField, hr]

/-- Witness for claim C2 at a concrete input: the empty record, field `x`
(absent), a chain of a non-implicit `min:5` followed by the implicit
`required` — the run equals the run of the implicit-only subchain. -/
theorem c2_witness :
    runRules [] [] [] false "x" .vNil [minRuleV ⟨5, 0⟩, requiredRuleV]
      = runRules [] [] [] false "x" .vNil
          ([minRuleV ⟨5, 0⟩, requiredRuleV].filter (fun r => r.isImplicit)) :=
  (c2_absent_or_nil_skips_non_implicit [] [] [] false "x" .vNil
    [minRuleV ⟨5, 0⟩, requiredRuleV] (Or.inl rfl)).1

/-- Claim C4.  Within one field's chain, with the stop flag off, the engine
evaluates exactly the prefix of the chain up to and including the first
failing implicit rule, records one message per failed rule of that prefix
in declared order, and never stops the overall run. -/
theorem c4_chain_order_and_implicit_halt (data : Data)
    (cm ca : List (String × String)) (field : String) (value : GoValue)
    (chain : List RuleV) :
    (runRules data cm ca false field value chain).1
      = ((upToImplicitFailure (failsOn data field value) chain).filter
          (failsOn data field value)).map
        (fun r => (field, getErrorMessage cm ca field r)) ∧
    (runRules data cm ca false field value chain).2 = false := by
  induction chain with
  | nil => exact ⟨rfl, rfl⟩
  | cons r rest ih =>
    by_cases hs : shouldValidateField data field value r
    · by_cases hp : r.passes data field value
      · have hf : failsOn data field value r = false := by simp [failsOn, hs, hp]
        constructor
        · simp only [runRules, hs, hp, upToImplicitFailure, hf, List.filter_cons]
          simp [ih.1]
        · simp only [runRules, hs, hp]
          simp [ih.2]
      · have hf : failsOn data field value r = true := by simp [failsOn, hs, hp]
        by_cases hi : r.isImplicit
        · constructor <;>
            simp [runRules, hs, hp, hi, upToImplicitFailure, hf, List.filter_cons]
        · constructor
          · simp only [runRules, hs, hp, hi, upToImplicitFailure, hf, List.filter_cons]
            simp [hi, ih.1]
          · simp only [runRules, hs, hp, hi]
            simp [ih.2]
    · have hf : failsOn data field value r = false := by simp [failsOn, hs]
      constructor
      · simp only [runRules, hs, upToImplicitFailure, hf, List.filter_cons]
        simp [ih.1]
      · simp only [runRules, hs]
        simp [ih.2]

/-- Witness for claim C4 at a concrete input: on the present integer value
`1`, the chain string-then-required-then-min evaluates in full (the only
failing implicit rule is none), recording the `string` and `min` failures
in declared order. -/
theorem c4_witness :
    (runRules [("a", .vInt 1)] [] [] false "a" (.vInt 1)
        [stringRuleV, requiredRuleV, minRuleV ⟨5, 0⟩]).1
      = ((upToImplicitFailure (failsOn [("a", .vInt 1)] "a" (.vInt 1))
            [stringRuleV, requiredRuleV, minRuleV ⟨5, 0⟩]).filter
          (failsOn [("a", .vInt 1)] "a" (.vInt 1))).map
        (fun r => ("a", getErrorMessage [] [] "a" r)) :=
  (c4_chain_order_and_implicit_halt [("a", .vInt 1)] [] [] "a" (.vInt 1)
    [stringRuleV, requiredRuleV, minRuleV ⟨5, 0⟩]).1

/-- Claim C5.  A failed rule's message is chosen by precedence — the custom
message keyed `field.ruleName` wins over the one keyed `ruleName`, which
wins over the rule's default template — and the `:attribute` placeholder of
the chosen template is replaced by the caller-supplied display name when
one exists, else by the raw field name. -/
theorem c5_message_precedence_and_attribute (cm ca : List (String × String))
    (field : String) (r : RuleV) :
    (∀ m, lookupStr cm (field ++ "." ++ r.name) = some m →
      getErrorMessage cm ca field r = formatMessage ca m field) ∧
    (lookupStr cm (field ++ "." ++ r.name) = none →
      ∀ m, lookupStr cm r.name = some m →
        getErrorMessage cm ca field r = formatMessage ca m field) ∧
    (lookupStr cm (field ++ "." ++ r.name) = none →
      lookupStr cm r.name = none →
        getErrorMessage cm ca field r = formatMessage ca r.message field) ∧
    (∀ m d, lookupStr ca field = some d →
      formatMessage ca m field
        = goReplaceAll (goReplaceAll m ":attribute" d) ":field" field) ∧
    (∀ m, lookupStr ca field = none →
      formatMessage ca m field
        = goReplaceAll (goReplaceAll m ":attribute" field) ":field" field) := by
  refine ⟨?_, ?_, ?_, ?_, ?_⟩
  · intro m hm; simp [getErrorMessage, hm]
  · intro h1 m hm; simp [getErrorMessage, h1, hm]
  · intro h1 h2; simp [getErrorMessage, h1, h2]
  · intro m d hd; simp [formatMessage, hd]
  · intro m hm; simp [formatMessage, hm]

/-- Witness for claim C5 at a concrete input: the override keyed
`email.required` is the message chosen for a failing `required` on field
`email`. -/
theorem c5_witness :
    getErrorMessage [("email.required", "A :attribute B")] [("email", "correo")]
        "email" requiredRuleV
      = formatMessage [("email", "correo")] "A :attribute B" "email" :=
  (c5_message_precedence_and_attribute [("email.required", "A :attribute B")]
    [("email", "correo")] "email" requiredRuleV).1 "A :attribute B" rfl

/-- Claim C10.  For every rule key that is not a literal top-level key of
the data map (in particular every dotted path), every non-implicit rule on
it is skipped and contributes no failure, because the presence check looks
up only the full string as a top-level key — even when the dotted path
resolves to an existing nested value that would fail the rule (see the
witness). -/
theorem c10_dotted_key_presence_check (data : Data)
    (cm ca : List (String × String)) (stop : Bool) (field : String)
    (chain : List RuleV)
    (_hdot : goContainsChar field '.' = true)
    (habs : lookupStr data field = none)
    (himp : ∀ r ∈ chain, r.isImplicit = false) :
    runFields data cm ca stop [(field, chain)] = [] := by
  have hhf : hasField data field = false := by simp [hasField, habs]
  have key : ∀ ch : List RuleV, (∀ r ∈ ch, r.isImplicit = false) →
      runRules data cm ca stop field (getValue data field) ch = ([], false) := by
    intro ch
    induction ch with
    | nil => intro; rfl
    | cons r rest ih =>
      intro hall
      have hi : r.isImplicit = false := hall r (List.mem_cons_self r rest)
      have hs : shouldValidateField data field (getValue data field) r = false := by
        simp [shouldValidateField, hi, hhf]
      have hrest := ih (fun r hr => hall r (List.mem_cons_of_mem _ hr))
      simp [runRules, hs, hrest]
  simp [runFields, key chain himp]

/-- Witness for claim C10 at a concrete input: the key `user.profile.age`
is not a literal top-level key, so its `min:18` rule is skipped and no
failure is recorded, although the dotted path resolves to the nested value
`5`, which would fail `min:18`. -/
theorem c10_witness :
    runFields c10Data [] [] false [("user.profile.age", [minRuleV ⟨18, 0⟩])] = [] ∧
    getValue c10Data "user.profile.age" = .vInt 5 ∧
    minRulePasses ⟨18, 0⟩ (.vInt 5) = false :=
  ⟨c10_dotted_key_presence_check c10Data [] [] false "user.profile.age"
      [minRuleV ⟨18, 0⟩] rfl rfl
      (by intro r hr; simp only [List.mem_singleton] at hr; subst hr; rfl),
    rfl, rfl⟩

end Validation
